import Mathlib

/-!
Verification of the casadi generic-function core against its natural-language
specification.

The development shallowly embeds three parts of the code base:

* `IOSchemeCustomInternal` (io_scheme_internal implementation): custom
  input/output naming scheme with entries and descriptions.
* `MumpsInterface.solve` (mumps_interface.cpp): the linear-solver backend's
  solve entry point with its capability checks.
* The `FX` function abstraction (fx.hpp): lifecycle state machine, buffered
  setters/getters, evaluation, and Jacobian construction.  The bodies of
  `evaluate`, `evalSX`, `evalMX`, `spEvaluate` and `jacobian` are not part of
  the provided sources (only their declarations and documentation), so those
  parts are modelled from the specification, as indicated by the doc comments.
* A scalar expression-graph model of the evaluation dispatcher: numeric
  evaluation, forward-mode directional derivatives, adjoint-mode accumulation
  and boolean dependency (sparsity) propagation.  Numeric semantics are
  modelled over the exact rationals; the spec's floating-point tolerance
  becomes exact equality in this model.
-/

namespace Casadi

/-! ## IOSchemeCustomInternal (from the io_scheme implementation file) -/

/-- The custom IO scheme: a list of entry names and a parallel list of
descriptions (`entries_` and `descriptions_` members in the source). -/
structure IOSchemeCustomInternal where
  entries_ : List String
  descriptions_ : List String
deriving DecidableEq

/-- Constructor `IOSchemeCustomInternal(entries, descriptions)`: when the
descriptions vector is empty it is resized (with empty strings) to the length
of `entries`; afterwards `casadi_assert(descriptions_.size()==entries.size())`
runs.  The assertion failure is modelled as `Except.error`. -/
def IOSchemeCustomInternal.make (entries descriptions : List String) :
    Except String IOSchemeCustomInternal :=
  let descr := if descriptions.isEmpty then List.replicate entries.length "" else descriptions
  if descr.length = entries.length then .ok ⟨entries, descr⟩
  else .error "casadi_assert failed"

/-- `IOSchemeCustomInternal::size()`. -/
def IOSchemeCustomInternal.size (s : IOSchemeCustomInternal) : Nat :=
  s.entries_.length

/-- `IOSchemeCustomInternal::name()`. -/
def IOSchemeCustomInternal.name (_ : IOSchemeCustomInternal) : String :=
  "customIO"

/-- `IOSchemeCustomInternal::entryNames()`: comma-separated entry names. -/
def IOSchemeCustomInternal.entryNames (s : IOSchemeCustomInternal) : String :=
  String.intercalate ", " s.entries_

/-- `IOSchemeCustomInternal::entry(int i)`: asserts `i>=0 && i<entries_.size()`
(`casadi_assert_message`, modelled as `Except.error`), then returns
`entries_[i]`. -/
def IOSchemeCustomInternal.entry (s : IOSchemeCustomInternal) (i : Int) :
    Except String String :=
  if 0 ≤ i ∧ i < (s.entries_.length : Int) then .ok (s.entries_.getD i.toNat "")
  else .error "customIO::entry(): index out of range"

/-- `IOSchemeCustomInternal::entryEnum(int i)`: always the empty string. -/
def IOSchemeCustomInternal.entryEnum (_ : IOSchemeCustomInternal) (_ : Int) : String :=
  ""

/-- Raw C++ `std::vector` subscript `xs[i]`: an out-of-range access is
undefined behaviour, modelled as `none`. -/
def cppAt (xs : List String) (i : Int) : Option String :=
  if 0 ≤ i then xs.get? i.toNat else none

/-- `IOSchemeCustomInternal::describe(int i)`: reads `descriptions_[i]`
directly (raw subscript); when that description is empty, returns `entry(i)`,
otherwise `entry(i)` followed by the quoted description. -/
def IOSchemeCustomInternal.describe (s : IOSchemeCustomInternal) (i : Int) :
    Except String String :=
  match cppAt s.descriptions_ i with
  | none => .error "out-of-range subscript"
  | some d =>
    if d.isEmpty then s.entry i
    else do
      let e ← s.entry i
      .ok (e ++ " \x27" ++ d ++ "\x27")

/-- The linear scan of `IOSchemeCustomInternal::index`: iterate over
`entries_` from the front and return the offset of the first match. -/
def findIndex (nm : String) : List String → Option Nat
  | [] => none
  | e :: rest => if nm = e then some 0 else (findIndex nm rest).map (· + 1)

/-- `IOSchemeCustomInternal::index(const std::string& name)`: first matching
offset, or `casadi_error` (modelled as `Except.error`) when no entry matches.
The `return -1` after `casadi_error` in the source is unreachable. -/
def IOSchemeCustomInternal.index (s : IOSchemeCustomInternal) (nm : String) :
    Except String Int :=
  match findIndex nm s.entries_ with
  | some i => .ok (i : Int)
  | none => .error "customIO::index(): entry not available"

/-- `IOSchemeCustomInternal::print` and `::repr` both write
`customIO(<entryNames>)`. -/
def IOSchemeCustomInternal.printRepr (s : IOSchemeCustomInternal) : String :=
  "customIO(" ++ s.entryNames ++ ")"

/-! ## Error taxonomy (from the specification, section 7) -/

/-- The spec's error taxonomy.  The source raises `casadi_error` /
`casadi_assert` exceptions; the spec classifies them into these categories
(`casadi_error("not implemented")` surfaces as `unsupportedOperation`). -/
inductive CasadiError where
  | notInitialized
  | shapeError
  | outOfRange
  | unsupportedOperation (msg : String)
deriving DecidableEq

/-! ## MumpsInterface::solve (from mumps_interface.cpp) -/

/-- Observable steps of `MumpsInterface::solve` after its capability checks:
filling the `DMUMPS_STRUC_C` problem definition, then the numeric solve
(`job = 6; dmumps_c(...)`). -/
inductive MumpsAction where
  | defineProblem
  | numericSolve
deriving DecidableEq

/-- `MumpsInterface::solve(mem, A, x, nrhs, tr)`: first
`if (tr) casadi_error("not implemented")`, then
`if (nrhs != 1) casadi_error("not implemented")`, and only afterwards the
problem is defined and the numeric solve is performed.  The returned action
list records what was executed; an error means nothing numeric ran. -/
def MumpsInterface.solve (nrhs : Int) (tr : Bool) :
    Except CasadiError (List MumpsAction) :=
  if tr then .error (.unsupportedOperation "not implemented")
  else if nrhs ≠ 1 then .error (.unsupportedOperation "not implemented")
  else .ok [.defineProblem, .numericSolve]

/-! ## The FX function abstraction (from fx.hpp)

The bodies of `FX`'s methods live outside the provided sources; the header
provides the declarations, the setter/getter macro bodies
(`assertInit(); buffer.set/get(...)`) and the documentation.  The pieces
below are therefore modelled from the spec where the header leaves them
open, as each doc comment states. -/

/-- Modelled from the spec: the function-instance lifecycle
`Uninitialized -> Initializing -> Ready`. -/
inductive FXState where
  | uninitialized
  | initializing
  | ready
deriving DecidableEq

/-- A slot's 2-D shape (rows, columns).  A slot is column-shaped when it has
a single column. -/
structure Shape where
  rows : Nat
  cols : Nat
deriving DecidableEq

/-- Model of an `FX` function instance: lifecycle state, slot shapes, the
I/O slot store's buffers (value buffers plus per-direction forward/adjoint
seed and sensitivity buffers, `FunctionIO::data/dataF/dataA`), the defining
computation `outFun`, and — per the note in fx.hpp that FX instances such as
implicitFunction and the IDAS solver are allowed to modify their input
arguments when evaluating — an opt-in input-mutation capability
`modifiesInputs` with its effect `inputUpdate`. -/
structure FXModel where
  state : FXState
  inShapes : List Shape
  outShapes : List Shape
  inputs : List (List ℚ)
  outputs : List (List ℚ)
  fseed : List (List (List ℚ))
  fsens : List (List (List ℚ))
  aseed : List (List (List ℚ))
  asens : List (List (List ℚ))
  modifiesInputs : Bool
  outFun : List (List ℚ) → List (List ℚ)
  inputUpdate : List (List ℚ) → List (List ℚ)

/-- Modelled from the spec: `assertInit()` fails with `NotInitialized`
unless the instance has reached the Ready state. -/
def FXModel.assertInit (m : FXModel) : Except CasadiError Unit :=
  if m.state = .ready then .ok () else .error .notInitialized

/-- Modelled from the spec: completing the one-time structural
initialization moves the instance to the Ready state. -/
def FXModel.init (m : FXModel) : FXModel :=
  { m with state := .ready }

/-- Write `val` into position `(ind, dir)` of a per-slot, per-direction
buffer family. -/
def setAt2 (xs : List (List (List ℚ))) (ind dir : Nat) (val : List ℚ) :
    List (List (List ℚ)) :=
  xs.set ind ((xs.getD ind []).set dir val)

/-- `FX::setInput` (SETTERS macro): `assertInit(); input(ind).set(val);`. -/
def FXModel.setInput (m : FXModel) (val : List ℚ) (ind : Nat) :
    Except CasadiError FXModel :=
  match m.assertInit with
  | .error e => .error e
  | .ok _ => .ok { m with inputs := m.inputs.set ind val }

/-- `FX::setOutput` (SETTERS macro): `assertInit(); output(ind).set(val);`. -/
def FXModel.setOutput (m : FXModel) (val : List ℚ) (ind : Nat) :
    Except CasadiError FXModel :=
  match m.assertInit with
  | .error e => .error e
  | .ok _ => .ok { m with outputs := m.outputs.set ind val }

/-- `FX::setFwdSeed` (SETTERS macro): `assertInit(); fwdSeed(ind,dir).set(val);`. -/
def FXModel.setFwdSeed (m : FXModel) (val : List ℚ) (ind dir : Nat) :
    Except CasadiError FXModel :=
  match m.assertInit with
  | .error e => .error e
  | .ok _ => .ok { m with fseed := setAt2 m.fseed ind dir val }

/-- `FX::setFwdSens` (SETTERS macro): `assertInit(); fwdSens(ind,dir).set(val);`. -/
def FXModel.setFwdSens (m : FXModel) (val : List ℚ) (ind dir : Nat) :
    Except CasadiError FXModel :=
  match m.assertInit with
  | .error e => .error e
  | .ok _ => .ok { m with fsens := setAt2 m.fsens ind dir val }

/-- `FX::setAdjSeed` (SETTERS macro): `assertInit(); adjSeed(ind,dir).set(val);`. -/
def FXModel.setAdjSeed (m : FXModel) (val : List ℚ) (ind dir : Nat) :
    Except CasadiError FXModel :=
  match m.assertInit with
  | .error e => .error e
  | .ok _ => .ok { m with aseed := setAt2 m.aseed ind dir val }

/-- `FX::setAdjSens` (SETTERS macro): `assertInit(); adjSens(ind,dir).set(val);`. -/
def FXModel.setAdjSens (m : FXModel) (val : List ℚ) (ind dir : Nat) :
    Except CasadiError FXModel :=
  match m.assertInit with
  | .error e => .error e
  | .ok _ => .ok { m with asens := setAt2 m.asens ind dir val }

/-- `FX::getInput` (GETTERS macro): `assertInit(); input(ind).get(val);`. -/
def FXModel.getInput (m : FXModel) (ind : Nat) : Except CasadiError (List ℚ) :=
  match m.assertInit with
  | .error e => .error e
  | .ok _ => .ok (m.inputs.getD ind [])

/-- `FX::getOutput` (GETTERS macro): `assertInit(); output(ind).get(val);`. -/
def FXModel.getOutput (m : FXModel) (ind : Nat) : Except CasadiError (List ℚ) :=
  match m.assertInit with
  | .error e => .error e
  | .ok _ => .ok (m.outputs.getD ind [])

/-- `FX::getFwdSeed` (GETTERS macro). -/
def FXModel.getFwdSeed (m : FXModel) (ind dir : Nat) : Except CasadiError (List ℚ) :=
  match m.assertInit with
  | .error e => .error e
  | .ok _ => .ok ((m.fseed.getD ind []).getD dir [])

/-- `FX::getFwdSens` (GETTERS macro). -/
def FXModel.getFwdSens (m : FXModel) (ind dir : Nat) : Except CasadiError (List ℚ) :=
  match m.assertInit with
  | .error e => .error e
  | .ok _ => .ok ((m.fsens.getD ind []).getD dir [])

/-- `FX::getAdjSeed` (GETTERS macro). -/
def FXModel.getAdjSeed (m : FXModel) (ind dir : Nat) : Except CasadiError (List ℚ) :=
  match m.assertInit with
  | .error e => .error e
  | .ok _ => .ok ((m.aseed.getD ind []).getD dir [])

/-- `FX::getAdjSens` (GETTERS macro). -/
def FXModel.getAdjSens (m : FXModel) (ind dir : Nat) : Except CasadiError (List ℚ) :=
  match m.assertInit with
  | .error e => .error e
  | .ok _ => .ok ((m.asens.getD ind []).getD dir [])

/-- Modelled from the spec: `FX::evaluate(nfdir, nadir)` requires the Ready
state, writes the output value buffers from the input value buffers via the
defining computation, and — only for instances with the documented opt-in
input-mutation capability (fx.hpp: implicitFunction, IDAS solver) — may also
rewrite the input buffers.  Failure returns the error without producing a
new instance state (instance unchanged).  Sensitivity propagation itself is
modelled by the expression-graph semantics below. -/
def FXModel.evaluate (m : FXModel) (nfdir nadir : Nat) : Except CasadiError FXModel :=
  match m.assertInit with
  | .error e => .error e
  | .ok _ => .ok { m with
      outputs := m.outFun m.inputs
      inputs := if m.modifiesInputs then m.inputUpdate m.inputs else m.inputs }

/-- Modelled from the spec: the function instance built by
`jacobian(iind, oind)` — same inputs as the original, one output holding the
Jacobian block of shape (output rows) x (input rows). -/
def FXModel.jacobianModel (m : FXModel) (si so : Shape) : FXModel :=
  { state := .ready
    inShapes := m.inShapes
    outShapes := [⟨so.rows, si.rows⟩]
    inputs := m.inputs
    outputs := []
    fseed := []
    fsens := []
    aseed := []
    asens := []
    modifiesInputs := false
    outFun := fun x => x
    inputUpdate := fun x => x }

/-- Modelled from the spec: `FX::jacobian(iind, oind)` requires the Ready
state, the slot indices to be in range, and both the selected input slot and
the selected output slot to be column-shaped (fx.hpp: to calculate jacobians
you need `m = 1, q = 1`); otherwise it fails with `ShapeError`. -/
def FXModel.jacobian (m : FXModel) (iind oind : Nat) : Except CasadiError FXModel :=
  match m.assertInit with
  | .error e => .error e
  | .ok _ =>
    match m.inShapes.get? iind, m.outShapes.get? oind with
    | some si, some so =>
        if si.cols = 1 ∧ so.cols = 1 then .ok (m.jacobianModel si so)
        else .error .shapeError
    | _, _ => .error .outOfRange

/-- Modelled from the spec: `FX::hessian(iind, oind)` requires the Ready
state and a scalar (1 x 1) output slot, and is built as the Jacobian of the
Jacobian. -/
def FXModel.hessian (m : FXModel) (iind oind : Nat) : Except CasadiError FXModel :=
  match m.assertInit with
  | .error e => .error e
  | .ok _ =>
    match m.outShapes.get? oind with
    | some so =>
        if so.rows = 1 ∧ so.cols = 1 then
          (m.jacobian iind oind).bind (fun jm => jm.jacobian iind 0)
        else .error .shapeError
    | none => .error .outOfRange

/-- A concrete instance of the kind fx.hpp documents as allowed to modify
its input arguments when evaluating (implicitFunction, IDAS solver): an
implicit-function-style solver that writes the computed solution back into
its input buffer. -/
def implicitFunctionLike : FXModel :=
  { state := .ready
    inShapes := [⟨1, 1⟩]
    outShapes := [⟨1, 1⟩]
    inputs := [[0]]
    outputs := [[0]]
    fseed := []
    fsens := []
    aseed := []
    asens := []
    modifiesInputs := true
    outFun := fun x => x
    inputUpdate := fun _ => [[1]] }

/-- A concrete ordinary (non-input-mutating) Ready instance. -/
def plainFX : FXModel :=
  { implicitFunctionLike with
    modifiesInputs := false
    inputUpdate := fun x => x }

/-- A concrete Ready instance whose input slot 0 is not column-shaped
(2 x 3) while its output slot 0 is column-shaped (2 x 1). -/
def rowShapedFX : FXModel :=
  { plainFX with
    inShapes := [⟨2, 3⟩]
    outShapes := [⟨2, 1⟩] }

/-- A concrete not-yet-initialized instance. -/
def uninitFX : FXModel :=
  { plainFX with state := .uninitialized }

/-! ## Expression-graph model of the evaluation dispatcher

Modelled from the spec (section 6): a representation supplies a zero-order
evaluation, a forward-mode directional-derivative operation, an adjoint-mode
directional-derivative operation and a boolean dependency-propagation
operation.  The scalar expression graph below instantiates that contract;
numeric values are exact rationals. -/

/-- Modelled from the spec: a scalar expression graph over numbered input
entries (constants, inputs, sum, product, negation). -/
inductive Expr where
  | const : ℚ → Expr
  | var : Nat → Expr
  | add : Expr → Expr → Expr
  | mul : Expr → Expr → Expr
  | neg : Expr → Expr
deriving DecidableEq

/-- Zero-order evaluation: map input values to the output value. -/
def Expr.eval (env : Nat → ℚ) : Expr → ℚ
  | .const q => q
  | .var k => env k
  | .add a b => a.eval env + b.eval env
  | .mul a b => a.eval env * b.eval env
  | .neg a => - a.eval env

/-- Forward-mode sweep: the directional derivative of the expression at the
point `env` in the seed direction `seed`. -/
def Expr.fwd (env seed : Nat → ℚ) : Expr → ℚ
  | .const _ => 0
  | .var k => seed k
  | .add a b => a.fwd env seed + b.fwd env seed
  | .mul a b => a.fwd env seed * b.eval env + a.eval env * b.fwd env seed
  | .neg a => - a.fwd env seed

/-- Adjoint-mode sweep: the contribution accumulated into input entry `j`
when the expression's output is seeded with the adjoint value `w`. -/
def Expr.adj (env : Nat → ℚ) : Expr → ℚ → Nat → ℚ
  | .const _, _, _ => 0
  | .var k, w, j => if j = k then w else 0
  | .add a b, w, j => a.adj env w j + b.adj env w j
  | .mul a b, w, j => a.adj env (w * b.eval env) j + b.adj env (w * a.eval env) j
  | .neg a, w, j => a.adj env (-w) j

/-- Sparsity-propagation sweep (`spEvaluate`): the dependency bit-set of the
expression, one bit per input entry.  A bit is set when the entry occurs in
the expression's dependency graph — deliberately over-approximate (the bit
for `x` is set in `0 * x` even though the value never changes with `x`).
A forward sweep seeds an input bit and reads output bits; a backward sweep
seeds an output bit and reads input bits; both directions propagate this
same dependency relation. -/
def Expr.deps : Expr → Finset Nat
  | .const _ => ∅
  | .var k => {k}
  | .add a b => a.deps ∪ b.deps
  | .mul a b => a.deps ∪ b.deps
  | .neg a => a.deps

/-- The unit forward seed along input entry `i`. -/
def unitSeed (i : Nat) : Nat → ℚ :=
  fun j => if j = i then 1 else 0

/-- Entry `(·, i)` of the Jacobian of an expression at the point `env`:
its forward sensitivity under the unit seed for input entry `i`. -/
def jacEntry (env : Nat → ℚ) (e : Expr) (i : Nat) : ℚ :=
  e.fwd env (unitSeed i)

/-- Extend a seed vector on the `n` input entries to all entry numbers. -/
def extendSeed (n : Nat) (v : Fin n → ℚ) : Nat → ℚ :=
  fun j => if h : j < n then v ⟨j, h⟩ else 0

/-- Forward sensitivity of a column-shaped single-input (n entries)
single-output (p entries) function under the seed vector `v`: one forward
sweep per output entry. -/
def fwdSensF {n p : Nat} (f : Fin p → Expr) (env : Nat → ℚ) (v : Fin n → ℚ) :
    Fin p → ℚ :=
  fun j => (f j).fwd env (extendSeed n v)

/-- Adjoint sensitivity of the same function under the adjoint seed vector
`w`: the adjoint sweep accumulates every output entry's contribution into
each input entry. -/
def adjSensF {n p : Nat} (f : Fin p → Expr) (env : Nat → ℚ) (w : Fin p → ℚ) :
    Fin n → ℚ :=
  fun i => ∑ j, (f j).adj env (w j) i

/-- Modelled from the spec: `evaluate` with several forward directions runs
the per-direction forward sweep for each seeded direction in order, writing
one sensitivity buffer per direction into the slot store. -/
def evaluateFwd (f : List Expr) (env : Nat → ℚ) (seeds : List (Nat → ℚ)) :
    List (List ℚ) :=
  seeds.foldl (fun bufs s => bufs ++ [f.map (fun e => e.fwd env s)]) []

/-- Concrete evaluation point used below: input entry 0 holds 2, every other
entry 5. -/
def envW : Nat → ℚ :=
  fun i => if i = 0 then 2 else 5

/-- The spec's example function `f(x, y) = (x * y, x + y)` on two input
entries. -/
def fW : Fin 2 → Expr :=
  fun j => if j = 0 then .mul (.var 0) (.var 1) else .add (.var 0) (.var 1)

/-! ## Theorems: IOSchemeCustomInternal (claims C9 and C10) -/

theorem findIndex_eq_some (nm : String) (l : List String) (i : Nat)
    (h : findIndex nm l = some i) :
    l.get? i = some nm ∧ ∀ j : Nat, j < i → l.get? j ≠ some nm := by
  induction l generalizing i with
  | nil => simp [findIndex] at h
  | cons e rest ih =>
    by_cases he : nm = e
    · rw [findIndex, if_pos he] at h
      cases h
      exact ⟨by simp [he], fun j hj => absurd hj (by omega)⟩
    · rw [findIndex, if_neg he] at h
      obtain ⟨k, hk, rfl⟩ := Option.map_eq_some'.mp h
      obtain ⟨h1, h2⟩ := ih k hk
      refine ⟨h1, fun j hj => ?_⟩
      cases j with
      | zero => simp [Ne.symm he]
      | succ j => exact h2 j (by omega)

theorem findIndex_eq_none (nm : String) (l : List String) (h : nm ∉ l) :
    findIndex nm l = none := by
  induction l with
  | nil => rfl
  | cons e rest ih =>
    rw [List.mem_cons, not_or] at h
    rw [findIndex, if_neg h.1, ih h.2]
    rfl

theorem findIndex_get (l : List String) (hl : l.Nodup) (i : Nat) (e : String)
    (h : l.get? i = some e) : findIndex e l = some i := by
  induction l generalizing i with
  | nil => simp at h
  | cons a rest ih =>
    rw [List.nodup_cons] at hl
    obtain ⟨ha, hrest⟩ := hl
    cases i with
    | zero =>
      cases h
      rw [findIndex, if_pos rfl]
    | succ i =>
      have hmem : e ∈ rest := List.get?_mem h
      have hne : e ≠ a := fun hea => ha (hea ▸ hmem)
      rw [findIndex, if_neg hne, ih hrest i h]
      rfl

theorem make_inv (entries descriptions : List String) (s : IOSchemeCustomInternal)
    (h : IOSchemeCustomInternal.make entries descriptions = .ok s) :
    s.entries_ = entries ∧ s.descriptions_.length = entries.length := by
  simp only [IOSchemeCustomInternal.make] at h
  by_cases hc :
      (if descriptions.isEmpty then List.replicate entries.length "" else descriptions).length =
        entries.length
  · rw [if_pos hc] at h
    cases h
    exact ⟨rfl, hc⟩
  · rw [if_neg hc] at h
    exact Except.noConfusion h

theorem describe_ok (s : IOSchemeCustomInternal)
    (inv : s.descriptions_.length = s.entries_.length) (i : Int)
    (h0 : 0 ≤ i) (hs : i < (s.size : Int)) : ∃ r, s.describe i = .ok r := by
  have hlt : i.toNat < s.entries_.length := by
    simp only [IOSchemeCustomInternal.size] at hs
    omega
  have hdlt : i.toNat < s.descriptions_.length := by omega
  have hcond : 0 ≤ i ∧ i < (s.entries_.length : Int) := ⟨h0, by omega⟩
  have hentry : s.entry i = .ok (s.entries_.getD i.toNat "") := by
    rw [IOSchemeCustomInternal.entry, if_pos hcond]
  by_cases hE : (s.descriptions_.get ⟨i.toNat, hdlt⟩).isEmpty
  · refine ⟨s.entries_.getD i.toNat "", ?_⟩
    simp only [IOSchemeCustomInternal.describe, cppAt, if_pos h0,
      List.get?_eq_get hdlt, hE, if_true]
    exact hentry
  · refine ⟨s.entries_.getD i.toNat "" ++ " \x27" ++ s.descriptions_.get ⟨i.toNat, hdlt⟩ ++ "\x27", ?_⟩
    simp only [IOSchemeCustomInternal.describe, cppAt, if_pos h0,
      List.get?_eq_get hdlt, hE, if_false, Bool.false_eq_true, hentry]
    rfl

/-- Claim C9: construction of an `IOSchemeCustomInternal` succeeds exactly
when the descriptions list is empty (it is then replaced by empty
descriptions, one per entry) or has the same length as the entries list;
every successfully constructed scheme satisfies
`descriptions_.size() == entries_.size()` (all further operations are const,
so the invariant persists), and `describe(i)` for `0 <= i < size()` never
performs an out-of-range access. -/
theorem C9_descriptions_invariant (entries descriptions : List String) :
    ((∃ s, IOSchemeCustomInternal.make entries descriptions = .ok s) ↔
      descriptions = [] ∨ descriptions.length = entries.length) ∧
    ∀ s, IOSchemeCustomInternal.make entries descriptions = .ok s →
      s.descriptions_.length = s.entries_.length ∧
      ∀ i : Int, 0 ≤ i → i < (s.size : Int) → ∃ r, s.describe i = .ok r := by
  constructor
  · constructor
    · rintro ⟨s, hs⟩
      simp only [IOSchemeCustomInternal.make] at hs
      by_cases hd : descriptions.isEmpty
      · left
        exact List.isEmpty_iff.mp hd
      · right
        rw [if_neg hd] at hs
        split at hs
        · next hc => exact hc
        · cases hs
    · intro h
      simp only [IOSchemeCustomInternal.make]
      by_cases hd : descriptions.isEmpty
      · rw [if_pos hd, if_pos (List.length_replicate _ _)]
        exact ⟨_, rfl⟩
      · rcases h with h | h
        · exact absurd (List.isEmpty_iff.mpr h) hd
        · rw [if_neg hd, if_pos h]
          exact ⟨_, rfl⟩
  · intro s hs
    obtain ⟨hent, hlen⟩ := make_inv entries descriptions s hs
    have inv : s.descriptions_.length = s.entries_.length := by rw [hent, hlen]
    exact ⟨inv, fun i h0 hs2 => describe_ok s inv i h0 hs2⟩

/-- Concrete check for C9: constructing the scheme `(["x", "y"], [])`
succeeds, establishes the length invariant, and `describe 0` is safe. -/
theorem C9_witness :
    ∃ s, IOSchemeCustomInternal.make ["x", "y"] [] = .ok s ∧
      s.descriptions_.length = s.entries_.length ∧ ∃ r, s.describe 0 = .ok r := by
  have h := C9_descriptions_invariant ["x", "y"] []
  have hok : IOSchemeCustomInternal.make ["x", "y"] [] = .ok ⟨["x", "y"], ["", ""]⟩ := rfl
  obtain ⟨hlen, hdesc⟩ := h.2 _ hok
  exact ⟨_, hok, hlen, hdesc 0 (by decide) (by decide)⟩

theorem entry_inv (s : IOSchemeCustomInternal) (i : Nat) (e : String)
    (h : s.entry (i : Int) = .ok e) :
    i < s.entries_.length ∧ s.entries_.get? i = some e := by
  rw [IOSchemeCustomInternal.entry] at h
  split at h
  · next hc =>
    cases h
    have hlt : i < s.entries_.length := by
      have := hc.2
      omega
    refine ⟨hlt, ?_⟩
    rw [List.get?_eq_get hlt]
    have : (i : Int).toNat = i := rfl
    rw [List.getD_eq_get?, this, List.get?_eq_get hlt]
    rfl
  · cases h

/-- Claim C10: `index(name)` returns the smallest index whose entry equals
`name` when one exists and fails with `casadi_error` otherwise; when the
entry names are pairwise distinct, `index(entry(i)) == i` for every
in-range `i`. -/
theorem C10_index_spec (s : IOSchemeCustomInternal) (nm : String) :
    (∀ k : Int, s.index nm = .ok k →
        0 ≤ k ∧ s.entries_.get? k.toNat = some nm ∧
        ∀ j : Nat, (j : Int) < k → s.entries_.get? j ≠ some nm) ∧
    (nm ∉ s.entries_ →
        s.index nm = .error "customIO::index(): entry not available") ∧
    (s.entries_.Nodup → ∀ (i : Nat) (e : String), s.entry (i : Int) = .ok e →
        s.index e = .ok (i : Int)) := by
  refine ⟨?_, ?_, ?_⟩
  · intro k hk
    rw [IOSchemeCustomInternal.index] at hk
    cases hf : findIndex nm s.entries_ with
    | none => rw [hf] at hk; cases hk
    | some i =>
      rw [hf] at hk
      cases hk
      obtain ⟨h1, h2⟩ := findIndex_eq_some nm s.entries_ i hf
      refine ⟨by omega, by simpa using h1, fun j hj => h2 j (by omega)⟩
  · intro hmem
    rw [IOSchemeCustomInternal.index, findIndex_eq_none nm s.entries_ hmem]
  · intro hnd i e he
    obtain ⟨hlt, hget⟩ := entry_inv s i e he
    rw [IOSchemeCustomInternal.index, findIndex_get s.entries_ hnd i e hget]

/-- Concrete check for C10: in the scheme with entries `["a", "b"]`,
`index("b")` is 1, which is `index(entry(1))`. -/
theorem C10_witness :
    IOSchemeCustomInternal.index ⟨["a", "b"], ["", ""]⟩ "b" = .ok ((1 : Nat) : Int) := by
  exact (C10_index_spec ⟨["a", "b"], ["", ""]⟩ "b").2.2 (by decide) 1 "b" rfl

/-! ## Theorems: MumpsInterface::solve (claim C6) -/

/-- Claim C6: every `MumpsInterface::solve` call with the transpose flag set
or with a number of right-hand sides different from one fails (surfaced in
the spec's taxonomy as `UnsupportedOperation`, raised by
`casadi_error("not implemented")`) before the problem is defined or any
numeric solve is performed — in particular no action list is produced. -/
theorem C6_solve_unsupported (nrhs : Int) (tr : Bool)
    (h : tr = true ∨ nrhs ≠ 1) :
    MumpsInterface.solve nrhs tr = .error (.unsupportedOperation "not implemented") ∧
    ∀ acts, MumpsInterface.solve nrhs tr = .ok acts → False := by
  have herr :
      MumpsInterface.solve nrhs tr = .error (.unsupportedOperation "not implemented") := by
    rcases h with h | h
    · rw [MumpsInterface.solve, if_pos h]
    · rw [MumpsInterface.solve]
      by_cases htr : tr
      · rw [if_pos htr]
      · rw [if_neg htr, if_pos h]
  exact ⟨herr, fun acts hok => by rw [herr] at hok; exact Except.noConfusion hok⟩

/-- Concrete check for C6: a transposed solve with one right-hand side is
rejected. -/
theorem C6_witness :
    MumpsInterface.solve 1 true = .error (.unsupportedOperation "not implemented") :=
  (C6_solve_unsupported 1 true (Or.inl rfl)).1

/-! ## Theorems: FX lifecycle and shape checks (claims C7, C5, C1) -/

/-- Claim C7: on an instance that has not reached the Ready state, every
setter, getter, evaluation and derivative-construction operation fails with
`NotInitialized`; the failed call produces no new instance state (the
operations return only the error), and the same unchanged instance can still
be initialized afterwards. -/
theorem C7_not_initialized (m : FXModel) (h : m.state ≠ .ready) (val : List ℚ)
    (ind dir nfdir nadir iind oind : Nat) :
    m.setInput val ind = .error .notInitialized ∧
    m.setOutput val ind = .error .notInitialized ∧
    m.setFwdSeed val ind dir = .error .notInitialized ∧
    m.setFwdSens val ind dir = .error .notInitialized ∧
    m.setAdjSeed val ind dir = .error .notInitialized ∧
    m.setAdjSens val ind dir = .error .notInitialized ∧
    m.getInput ind = .error .notInitialized ∧
    m.getOutput ind = .error .notInitialized ∧
    m.getFwdSeed ind dir = .error .notInitialized ∧
    m.getFwdSens ind dir = .error .notInitialized ∧
    m.getAdjSeed ind dir = .error .notInitialized ∧
    m.getAdjSens ind dir = .error .notInitialized ∧
    m.evaluate nfdir nadir = .error .notInitialized ∧
    m.jacobian iind oind = .error .notInitialized ∧
    m.hessian iind oind = .error .notInitialized ∧
    (FXModel.init m).state = .ready := by
  have ha : m.assertInit = .error .notInitialized := by
    rw [FXModel.assertInit, if_neg h]
  refine ⟨?_, ?_, ?_, ?_, ?_, ?_, ?_, ?_, ?_, ?_, ?_, ?_, ?_, ?_, ?_, rfl⟩ <;>
    simp only [FXModel.setInput, FXModel.setOutput, FXModel.setFwdSeed,
      FXModel.setFwdSens, FXModel.setAdjSeed, FXModel.setAdjSens,
      FXModel.getInput, FXModel.getOutput, FXModel.getFwdSeed,
      FXModel.getFwdSens, FXModel.getAdjSeed, FXModel.getAdjSens,
      FXModel.evaluate, FXModel.jacobian, FXModel.hessian, ha]

/-- Concrete check for C7: an uninitialized instance rejects `setInput` and
`evaluate` and can still be initialized. -/
theorem C7_witness :
    uninitFX.setInput [3] 0 = .error .notInitialized ∧
    uninitFX.evaluate 0 0 = .error .notInitialized ∧
    (FXModel.init uninitFX).state = .ready := by
  have h := C7_not_initialized uninitFX (by decide) [3] 0 0 0 0 0 0
  exact ⟨h.1, h.2.2.2.2.2.2.2.2.2.2.2.2.1, h.2.2.2.2.2.2.2.2.2.2.2.2.2.2.2⟩

/-- Claim C5: on a Ready instance, `jacobian(iind, oind)` succeeds exactly
when both the selected input slot and the selected output slot are
column-shaped (single column), and fails with `ShapeError` for every
non-column-shaped pair. -/
theorem C5_jacobian_shape (m : FXModel) (hr : m.state = .ready)
    (iind oind : Nat) (si so : Shape)
    (hi : m.inShapes.get? iind = some si) (ho : m.outShapes.get? oind = some so) :
    ((∃ j, m.jacobian iind oind = .ok j) ↔ si.cols = 1 ∧ so.cols = 1) ∧
    (¬(si.cols = 1 ∧ so.cols = 1) →
      m.jacobian iind oind = .error .shapeError) := by
  have ha : m.assertInit = .ok () := by
    rw [FXModel.assertInit, if_pos hr]
  by_cases hc : si.cols = 1 ∧ so.cols = 1
  · refine ⟨⟨fun _ => hc, fun _ => ⟨m.jacobianModel si so, ?_⟩⟩, fun hn => absurd hc hn⟩
    simp only [FXModel.jacobian, ha, hi, ho, if_pos hc]
  · have herr : m.jacobian iind oind = .error .shapeError := by
      simp only [FXModel.jacobian, ha, hi, ho, if_neg hc]
    refine ⟨⟨fun hex => ?_, fun hcc => absurd hcc hc⟩, fun _ => herr⟩
    obtain ⟨j, hj⟩ := hex
    rw [herr] at hj
    exact Except.noConfusion hj

/-- Concrete check for C5: requesting a Jacobian for a 2 x 3 (row-shaped)
input slot fails with `ShapeError`. -/
theorem C5_witness :
    rowShapedFX.jacobian 0 0 = .error .shapeError :=
  (C5_jacobian_shape rowShapedFX rfl 0 0 ⟨2, 3⟩ ⟨2, 1⟩ rfl rfl).2 (by decide)

/-- Counterexample to claim C1 as stated: fx.hpp documents that FX instances
such as implicitFunction and the IDAS solver are allowed to modify their
input arguments when evaluating; for such an instance an evaluation call
leaves the input-slot value buffer different from what it was before. -/
theorem C1_counterexample :
    ∃ m2, FXModel.evaluate implicitFunctionLike 0 0 = .ok m2 ∧
      m2.inputs ≠ implicitFunctionLike.inputs := by
  refine ⟨_, rfl, ?_⟩
  intro hcontra
  have : ([[1]] : List (List ℚ)) = [[0]] := hcontra
  simp at this

/-- Claim C1 as amended: for every function instance without the documented
opt-in input-mutation capability (fx.hpp allows implicitFunction and the
IDAS solver to modify their inputs; all other instances treat input buffers
as read-only), the contents of every input-slot value buffer are the same
after an evaluation call as before it. -/
theorem C1_inputs_read_only (m : FXModel) (h : m.modifiesInputs = false)
    (nfdir nadir : Nat) (m2 : FXModel) (he : m.evaluate nfdir nadir = .ok m2) :
    m2.inputs = m.inputs := by
  rw [FXModel.evaluate] at he
  cases ha : m.assertInit with
  | error e => rw [ha] at he; exact Except.noConfusion he
  | ok u =>
    rw [ha] at he
    cases he
    simp [h]

/-- Concrete check for the amended C1: evaluating an ordinary Ready instance
leaves its input buffer `[[0]]` unchanged. -/
theorem C1_witness :
    ∃ m2, FXModel.evaluate plainFX 0 0 = .ok m2 ∧ m2.inputs = plainFX.inputs := by
  refine ⟨_, rfl, ?_⟩
  exact C1_inputs_read_only plainFX rfl 0 0 _ rfl

/-! ## Theorems: expression-graph semantics (claims C2, C3, C4, C8) -/

theorem eval_congr (e : Expr) (env env2 : Nat → ℚ)
    (h : ∀ j ∈ e.deps, env j = env2 j) : e.eval env = e.eval env2 := by
  induction e with
  | const q => rfl
  | var k => exact h k (by simp [Expr.deps])
  | add a b iha ihb =>
    simp only [Expr.eval]
    rw [iha (fun j hj => h j (by simp [Expr.deps, hj])),
      ihb (fun j hj => h j (by simp [Expr.deps, hj]))]
  | mul a b iha ihb =>
    simp only [Expr.eval]
    rw [iha (fun j hj => h j (by simp [Expr.deps, hj])),
      ihb (fun j hj => h j (by simp [Expr.deps, hj]))]
  | neg a iha =>
    simp only [Expr.eval]
    rw [iha (fun j hj => h j (by simp [Expr.deps, hj]))]

theorem fwd_seed_linear (e : Expr) (env s1 s2 : Nat → ℚ) (a b : ℚ) :
    e.fwd env (fun i => a * s1 i + b * s2 i) =
      a * e.fwd env s1 + b * e.fwd env s2 := by
  induction e with
  | const q => simp [Expr.fwd]
  | var k => simp [Expr.fwd]
  | add x y ihx ihy =>
    simp only [Expr.fwd]
    rw [ihx, ihy]
    ring
  | mul x y ihx ihy =>
    simp only [Expr.fwd]
    rw [ihx, ihy]
    ring
  | neg x ihx =>
    simp only [Expr.fwd]
    rw [ihx]
    ring

theorem extendSeed_linear (n : Nat) (v1 v2 : Fin n → ℚ) (a b : ℚ) :
    extendSeed n (fun i => a * v1 i + b * v2 i) =
      fun k => a * extendSeed n v1 k + b * extendSeed n v2 k := by
  funext k
  by_cases h : k < n
  · simp [extendSeed, h]
  · simp [extendSeed, h]

theorem fwd_extend (n : Nat) (env : Nat → ℚ) (v : Fin n → ℚ) :
    ∀ e : Expr, e.deps ⊆ Finset.range n →
      e.fwd env (extendSeed n v) = ∑ i : Fin n, jacEntry env e (i : Nat) * v i := by
  intro e
  induction e with
  | const q =>
    intro _
    simp [Expr.fwd, jacEntry]
  | var k =>
    intro hdeps
    have hk : k < n := Finset.mem_range.mp (hdeps (by simp [Expr.deps]))
    simp only [Expr.fwd]
    rw [Finset.sum_eq_single (⟨k, hk⟩ : Fin n)]
    · simp [extendSeed, jacEntry, unitSeed, Expr.fwd, hk]
    · intro c _ hc
      have hne : ¬ k = (c : Nat) := fun hkc => hc (Fin.ext hkc.symm)
      simp [jacEntry, unitSeed, Expr.fwd, hne]
    · intro habs
      exact absurd (Finset.mem_univ _) habs
  | add x y ihx ihy =>
    intro hdeps
    simp only [Expr.deps, Finset.union_subset_iff] at hdeps
    simp only [Expr.fwd]
    rw [ihx hdeps.1, ihy hdeps.2, ← Finset.sum_add_distrib]
    refine Finset.sum_congr rfl fun i _ => ?_
    simp only [jacEntry, Expr.fwd]
    ring
  | mul x y ihx ihy =>
    intro hdeps
    simp only [Expr.deps, Finset.union_subset_iff] at hdeps
    simp only [Expr.fwd]
    rw [ihx hdeps.1, ihy hdeps.2, Finset.sum_mul, Finset.mul_sum,
      ← Finset.sum_add_distrib]
    refine Finset.sum_congr rfl fun i _ => ?_
    simp only [jacEntry, Expr.fwd]
    ring
  | neg x ihx =>
    intro hdeps
    simp only [Expr.deps] at hdeps
    simp only [Expr.fwd]
    rw [ihx hdeps, ← Finset.sum_neg_distrib]
    refine Finset.sum_congr rfl fun i _ => ?_
    simp only [jacEntry, Expr.fwd]
    ring

theorem adj_eq_jacEntry (env : Nat → ℚ) (e : Expr) :
    ∀ (w : ℚ) (i : Nat), e.adj env w i = w * jacEntry env e i := by
  induction e with
  | const q =>
    intro w i
    simp [Expr.adj, jacEntry, Expr.fwd]
  | var k =>
    intro w i
    simp only [Expr.adj, jacEntry, Expr.fwd, unitSeed]
    by_cases h : i = k
    · subst h
      simp
    · have hki : ¬ k = i := fun hk => h hk.symm
      simp [h, hki]
  | add x y ihx ihy =>
    intro w i
    simp only [Expr.adj, jacEntry, Expr.fwd]
    rw [ihx, ihy]
    simp only [jacEntry]
    ring
  | mul x y ihx ihy =>
    intro w i
    simp only [Expr.adj, jacEntry, Expr.fwd]
    rw [ihx, ihy]
    simp only [jacEntry]
    ring
  | neg x ihx =>
    intro w i
    simp only [Expr.adj, jacEntry, Expr.fwd]
    rw [ihx]
    simp only [jacEntry]
    ring

/-- Claim C2: the dependency bit-set computed by the sparsity-propagation
sweep is a superset of the true analytic sparsity pattern: whenever input
entry `i` has its bit clear in the expression's bit-set, the output value is
numerically independent of that entry — so any entry the value can actually
depend on has its bit set (over-approximation allowed, under-approximation
impossible). -/
theorem C2_sparsity_sound (e : Expr) (i : Nat) (h : i ∉ e.deps)
    (env : Nat → ℚ) (x : ℚ) :
    e.eval (Function.update env i x) = e.eval env := by
  refine eval_congr e _ env fun j hj => ?_
  have hji : j ≠ i := fun hji => h (hji ▸ hj)
  exact Function.update_noteq hji x env

/-- Concrete check for C2: the bit-set of `0 * x0` is `{0}` (conservative
over-approximation), bit 1 is clear, and changing input entry 1 does not
change the value. -/
theorem C2_witness :
    (Expr.mul (Expr.const 0) (Expr.var 0)).eval
        (Function.update (fun _ => (3 : ℚ)) 1 7) =
      (Expr.mul (Expr.const 0) (Expr.var 0)).eval (fun _ => (3 : ℚ)) :=
  C2_sparsity_sound (Expr.mul (Expr.const 0) (Expr.var 0)) 1 (by decide) (fun _ => (3 : ℚ)) 7

/-- Claim C3: for fixed input values, the forward sensitivity of the
combined seed `a * seed1 + b * seed2` equals `a` times the sensitivity of
`seed1` plus `b` times the sensitivity of `seed2`, exactly (the model's
numeric semantics are exact rationals, so the floating-point tolerance of
the claim's numeric representation becomes exact equality). -/
theorem C3_linearity {n p : Nat} (f : Fin p → Expr) (env : Nat → ℚ)
    (v1 v2 : Fin n → ℚ) (a b : ℚ) (j : Fin p) :
    fwdSensF f env (fun i => a * v1 i + b * v2 i) j =
      a * fwdSensF f env v1 j + b * fwdSensF f env v2 j := by
  unfold fwdSensF
  rw [extendSeed_linear, fwd_seed_linear]

/-- Claim C4: for a column-shaped single-input single-output function with
Jacobian `J` (entries `jacEntry`), the forward sensitivity is `J * v`, the
adjoint sensitivity is `transpose(J) * w`, and hence
`dot(w, J * v) = dot(transpose(J) * w, v)`. -/
theorem C4_duality {n p : Nat} (f : Fin p → Expr)
    (hf : ∀ j, (f j).deps ⊆ Finset.range n) (env : Nat → ℚ)
    (v : Fin n → ℚ) (w : Fin p → ℚ) :
    (∀ j, fwdSensF f env v j = ∑ i : Fin n, jacEntry env (f j) (i : Nat) * v i) ∧
    (∀ i : Fin n, adjSensF f env w i = ∑ j, jacEntry env (f j) (i : Nat) * w j) ∧
    (∑ j, w j * fwdSensF f env v j) = ∑ i, adjSensF f env w i * v i := by
  have hfwd : ∀ j, fwdSensF f env v j = ∑ i : Fin n, jacEntry env (f j) (i : Nat) * v i :=
    fun j => fwd_extend n env v (f j) (hf j)
  have hadj : ∀ i : Fin n, adjSensF f env w i = ∑ j, jacEntry env (f j) (i : Nat) * w j := by
    intro i
    unfold adjSensF
    refine Finset.sum_congr rfl fun j _ => ?_
    rw [adj_eq_jacEntry env (f j) (w j) i]
    ring
  refine ⟨hfwd, hadj, ?_⟩
  calc (∑ j, w j * fwdSensF f env v j)
      = ∑ j, ∑ i : Fin n, w j * (jacEntry env (f j) (i : Nat) * v i) := by
        refine Finset.sum_congr rfl fun j _ => ?_
        rw [hfwd j, Finset.mul_sum]
    _ = ∑ i : Fin n, ∑ j, w j * (jacEntry env (f j) (i : Nat) * v i) := Finset.sum_comm
    _ = ∑ i, adjSensF f env w i * v i := by
        refine Finset.sum_congr rfl fun i _ => ?_
        rw [hadj i, Finset.sum_mul]
        refine Finset.sum_congr rfl fun j _ => ?_
        ring

/-- Concrete check for C4: forward/adjoint duality for the spec's example
`f(x, y) = (x * y, x + y)` at the point `(2, 5)` with unit seeds. -/
theorem C4_witness :
    (∑ j, (![1, 0] : Fin 2 → ℚ) j * fwdSensF fW envW ![1, 0] j) =
      ∑ i, adjSensF fW envW ![1, 0] i * (![1, 0] : Fin 2 → ℚ) i :=
  (C4_duality fW (by decide) envW ![1, 0] ![1, 0]).2.2

theorem evaluateFwd_eq_map (f : List Expr) (env : Nat → ℚ)
    (seeds : List (Nat → ℚ)) :
    evaluateFwd f env seeds =
      seeds.map (fun s => f.map (fun e => e.fwd env s)) := by
  have key : ∀ (ss : List (Nat → ℚ)) (acc : List (List ℚ)),
      ss.foldl (fun bufs s => bufs ++ [f.map (fun e => e.fwd env s)]) acc =
        acc ++ ss.map (fun s => f.map (fun e => e.fwd env s)) := by
    intro ss
    induction ss with
    | nil =>
      intro acc
      simp
    | cons s rest ih =>
      intro acc
      simp [ih]
  simpa using key seeds []

/-- Claim C8: evaluating with several forward directions at once yields, for
each direction, exactly the sensitivity buffer that evaluating with that
single direction alone yields — no direction's result depends on another
direction's seed or on the sweep order. -/
theorem C8_direction_independence (f : List Expr) (env : Nat → ℚ)
    (seeds : List (Nat → ℚ)) (d : Nat) (s : Nat → ℚ)
    (hs : seeds.get? d = some s) :
    (evaluateFwd f env seeds).get? d = some (f.map (fun e => e.fwd env s)) ∧
    evaluateFwd f env [s] = [f.map (fun e => e.fwd env s)] := by
  constructor
  · rw [evaluateFwd_eq_map, List.get?_map, hs]
    rfl
  · rw [evaluateFwd_eq_map]
    rfl

/-- Concrete check for C8: with two forward directions (a zero seed and the
unit seed for entry 0), direction 1's buffer is the same as from the
single-direction evaluation. -/
theorem C8_witness :
    (evaluateFwd [Expr.mul (Expr.var 0) (Expr.var 1)] envW
        [fun _ => (0 : ℚ), unitSeed 0]).get? 1 =
      some ([Expr.mul (Expr.var 0) (Expr.var 1)].map
        (fun e => e.fwd envW (unitSeed 0))) ∧
    evaluateFwd [Expr.mul (Expr.var 0) (Expr.var 1)] envW [unitSeed 0] =
      [[Expr.mul (Expr.var 0) (Expr.var 1)].map (fun e => e.fwd envW (unitSeed 0))] :=
  C8_direction_independence [Expr.mul (Expr.var 0) (Expr.var 1)] envW
    [fun _ => (0 : ℚ), unitSeed 0] 1 (unitSeed 0) rfl

end Casadi
